import Mathlib

/-!
Shallow embedding of `src/twcss-to-sass.ts` (the twcss-to-sass converter).

The source file's pipeline is: parse HTML (external collaborator) into a
node tree, normalize the tree (`filterHtmlData`, with `getStyleContents`
and `getAttributes`), synthesize selector names (`getClassName`), render
nested SCSS (`getSassTree`) and optionally hand the text to an external
beautifier (`convertToSass`).

JS conventions captured here:
- absent object fields (JS `undefined`) are modelled with `Option` and
  `none`; string interpolation of `undefined` yields the text "undefined";
- `Array.prototype.join` turns `null`/`undefined` entries into empty
  strings;
- node arrays are a dedicated `NodeList` type, mutually inductive with
  `HtmlNode`, so that the tree walks are structural recursions; `NodeList`
  is isomorphic to `List HtmlNode` via `toList`/`ofList`.

External collaborators (the HTML parser, `Utils`, `slug`, the CSS
beautifier) are not in `src/`; they are modelled from the spec where
needed, and marked as such.
-/

namespace TwcssToSass

/-- Raw attribute key/value pair, as in the parser's node shape (interface
IHtmlNodeAttribute of the source). -/
structure IHtmlNodeAttribute where
  key : String
  value : String
deriving DecidableEq, Repr

/-- Result shape of `getAttributes` (interface IAttribute of the source):
`{ style: string | null, class: string | null }`. The source field `class`
is a Lean keyword, so it is called `classAttr` here. -/
structure IAttribute where
  style : Option String
  classAttr : Option String
deriving DecidableEq, Repr

mutual
/-- HTML node as produced by the external parser and enriched in place by
`filterHtmlData`. Fields that a JS object may lack (`undefined`) are
`Option`s with `none` for the absent field. `type` is "element", "text" or
"comment" on parser output and absent on the synthetic style nodes built
by `getStyleContents`. -/
inductive HtmlNode where
  | mk (type : Option String) (tagName : Option String)
      (attributes : Option (List IHtmlNodeAttribute))
      (children : Option NodeList) (content : Option String)
      (comment : Option String) (order : Option Nat)
      (filterAttributes : Option IAttribute) (text : Option String) : HtmlNode
/-- A JS array of nodes. -/
inductive NodeList where
  | nil : NodeList
  | cons (head : HtmlNode) (tail : NodeList) : NodeList
end

/-- Field accessor for `type`. -/
def HtmlNode.typ : HtmlNode → Option String
  | .mk t _ _ _ _ _ _ _ _ => t

/-- Field accessor for `tagName`. -/
def HtmlNode.tagName : HtmlNode → Option String
  | .mk _ tn _ _ _ _ _ _ _ => tn

/-- Field accessor for `attributes`. -/
def HtmlNode.attributes : HtmlNode → Option (List IHtmlNodeAttribute)
  | .mk _ _ a _ _ _ _ _ _ => a

/-- Field accessor for `children`. -/
def HtmlNode.children : HtmlNode → Option NodeList
  | .mk _ _ _ ch _ _ _ _ _ => ch

/-- Field accessor for `content`. -/
def HtmlNode.content : HtmlNode → Option String
  | .mk _ _ _ _ co _ _ _ _ => co

/-- Field accessor for the derived `comment`. -/
def HtmlNode.comment : HtmlNode → Option String
  | .mk _ _ _ _ _ cm _ _ _ => cm

/-- Field accessor for the derived `order`. -/
def HtmlNode.order : HtmlNode → Option Nat
  | .mk _ _ _ _ _ _ od _ _ => od

/-- Field accessor for the derived `filterAttributes`. -/
def HtmlNode.filterAttributes : HtmlNode → Option IAttribute
  | .mk _ _ _ _ _ _ _ fa _ => fa

/-- Field accessor for `text`. -/
def HtmlNode.text : HtmlNode → Option String
  | .mk _ _ _ _ _ _ _ _ tx => tx

/-- View a `NodeList` as a `List`. -/
def NodeList.toList : NodeList → List HtmlNode
  | .nil => []
  | .cons n rest => n :: rest.toList

/-- Build a `NodeList` from a `List`. -/
def NodeList.ofList : List HtmlNode → NodeList
  | [] => .nil
  | n :: rest => .cons n (NodeList.ofList rest)

/-- `Array.prototype.filter` on a `NodeList`. -/
def NodeList.filter (p : HtmlNode → Bool) : NodeList → NodeList
  | .nil => .nil
  | .cons n rest => if p n then .cons n (rest.filter p) else rest.filter p

/-- Emptiness test on a `NodeList`. -/
def NodeList.isEmpty : NodeList → Bool
  | .nil => true
  | .cons _ _ => false

/-- Concatenation of two `NodeList`s (JS array spread `[...a, ...b]`). -/
def NodeList.append : NodeList → NodeList → NodeList
  | .nil, l => l
  | .cons n rest, l => .cons n (rest.append l)

/-- `Array.prototype.map` on a `NodeList`. -/
def NodeList.map (f : HtmlNode → HtmlNode) : NodeList → NodeList
  | .nil => .nil
  | .cons n rest => .cons (f n) (rest.map f)

/-- Length of a `NodeList`. -/
def NodeList.length : NodeList → Nat
  | .nil => 0
  | .cons _ rest => rest.length + 1

/-- Indexing into a `NodeList` (JS `a[i]`, absent out of range). -/
def NodeList.get? : NodeList → Nat → Option HtmlNode
  | .nil, _ => none
  | .cons n _, 0 => some n
  | .cons _ rest, j + 1 => rest.get? j

/-- JS string interpolation of a possibly-absent string. -/
def jsStr : Option String → String
  | some s => s
  | none => "undefined"

/-- JS string interpolation of a possibly-absent number. -/
def jsNatStr : Option Nat → String
  | some n => toString n
  | none => "undefined"

/-- JS truthiness of a possibly-absent string: `undefined` and `""` are
falsy, every other string is truthy. -/
def jsTruthyS : Option String → Bool
  | some s => s != ""
  | none => false

/-- Maximal whitespace-free words of a character list (helper for the
text cleaner; `acc` holds the current word reversed). -/
def wordsGo (acc : List Char) : List Char → List (List Char)
  | [] => if acc.isEmpty then [] else [acc.reverse]
  | c :: rest =>
      if c.isWhitespace then
        if acc.isEmpty then wordsGo [] rest
        else acc.reverse :: wordsGo [] rest
      else wordsGo (c :: acc) rest

/-- Collapse every whitespace run to a single space and trim. -/
def collapseWhitespace (s : String) : String :=
  String.intercalate " " ((wordsGo [] s.data).map (fun w => String.mk w))

/-- Drop every occurrence of the HTML comment delimiters from a
character list. -/
def stripCommentDelims : List Char → List Char
  | [] => []
  | '<' :: '!' :: '-' :: '-' :: rest => stripCommentDelims rest
  | '-' :: '-' :: '>' :: rest => stripCommentDelims rest
  | c :: rest => c :: stripCommentDelims rest

/-- Modelled from the spec: the repository's `Utils.cleanText` (file
`src/utils/utils.ts`, not under `src/`): "trims and collapses whitespace in
arbitrary text, with a secondary mode that also strips comment delimiter
syntax; returns `null` for text that becomes empty after cleaning". -/
def cleanText (text : String) (removeCommentDelims : Bool) : Option String :=
  let t := if removeCommentDelims then String.mk (stripCommentDelims text.data) else text
  let c := collapseWhitespace t
  if c == "" then none else some c

/-- Whether `s` ends with `pat` (by characters). -/
def strEndsWith (s pat : String) : Bool :=
  s.data.drop (s.data.length - pat.data.length) == pat.data

/-- Modelled from the spec: the repository's `Utils.addMissingSuffix` (file
`src/utils/utils.ts`, not under `src/`): appends the given trailing text
when missing ("with a trailing `;` appended if missing"). -/
def addMissingSuffix (text : String) (tail : String) : String :=
  if strEndsWith text tail then text else text ++ tail

/-- Modelled from the spec: the external `slug` collaborator: "text →
URL/selector-safe token under a given case/replacement policy" — case-fold
per the flag, replace whitespace/punctuation runs by the replacement
text. -/
def slug (s : String) (lower : Bool) (replacement : String) : String :=
  let t := if lower then String.mk (s.data.map Char.toLower) else s
  let cleaned := t.data.map (fun c => if c.isAlphanum then c else ' ')
  String.intercalate replacement ((wordsGo [] cleaned).map (fun w => String.mk w))

/-- Source `getAttributes`: keep only the attributes whose key is in
`keys`, clean each value (`attribute.value = Utils.cleanText(attribute.value)`,
so a value that cleans to empty becomes `null`), then pick the first
`style` and the first `class` entries. The source's `if (_attributes)`
guard is on an array, which is always truthy in JS, so the only `null`
result comes from a missing `attributes` field. -/
def getAttributes (attributes : Option (List IHtmlNodeAttribute))
    (keys : List String) : Option IAttribute :=
  match attributes with
  | none => none
  | some attrs =>
      let cleaned := (attrs.filter (fun a => keys.contains a.key)).map
        (fun a => (a.key, cleanText a.value false))
      some
        { style := (cleaned.find? (fun x => x.1 == "style")).bind (fun x => x.2),
          classAttr := (cleaned.find? (fun x => x.1 == "class")).bind (fun x => x.2) }

/-- Concatenation of the `content` of all children of a node, in document
order, with no separator; a child with no `content` contributes `""`
(JS `Array.prototype.join` renders `undefined` entries as empty). -/
def allChildContents (element : HtmlNode) : String :=
  String.join (((element.children.getD .nil).toList).map (fun x => x.content.getD ""))

/-- The synthetic node `getStyleContents` builds for one raw style
element: `{ tagName: 'style', text: 'STYLE', filterAttributes: { style } }`;
every other field is absent. -/
def syntheticStyleNode (styleContents : String) : HtmlNode :=
  HtmlNode.mk none (some "style") none none none none none
    (some { style := some styleContents, classAttr := none }) (some "STYLE")

/-- Source `getStyleContents`. The child filter in the source is
`x => (x.type = 'text')` — an assignment, not a comparison — whose value
is the truthy string "text", so no child is ever rejected; it is embedded
as a constantly-true filter (the type mutation it performs is not
observable downstream). -/
def getStyleContents (styleElements : NodeList) : NodeList :=
  styleElements.map (fun element =>
    let styleContents :=
      String.join (((element.children.getD .nil).toList.filter (fun _x => true)).map
        (fun x => x.content.getD ""))
    syntheticStyleNode styleContents)

/-- Nodes kept as "parent candidates" by `filterHtmlData`:
`(x.type == 'element' || x.type == 'comment') && x.tagName != 'style'`. -/
def isCandidate (x : HtmlNode) : Bool :=
  (x.typ == some "element" || x.typ == some "comment") && x.tagName != some "style"

/-- Style-element test of `filterHtmlData`: `x.tagName == 'style'`. -/
def isStyleTag (x : HtmlNode) : Bool :=
  x.tagName == some "style"

/-- The `styleList` a level contributes: synthetic nodes for the level's
style elements, or `[]` when there are none. -/
def styleListOf (nodes : NodeList) : NodeList :=
  let styleElements := nodes.filter isStyleTag
  if !styleElements.isEmpty then getStyleContents styleElements else .nil

/-- JS `x !== null` applied to the `children` field. On every reachable
node `children` is either absent (JS `undefined`) or an array — the parser
never emits a `null` children field and `filterHtmlData` only ever assigns
arrays — and both `undefined !== null` and `array !== null` hold, so this
comparison is constantly true. -/
def jsChildrenNeNull (_c : Option NodeList) : Bool := true

/-- JS `x === null` applied to the `children` field; constantly false for
the same reason `jsChildrenNeNull` is constantly true. -/
def jsChildrenEqNull (_c : Option NodeList) : Bool := false

/-- JS `x === null` applied to the `filterAttributes` field. `none` here
stands for both JS `undefined` (raw parser nodes) and JS `null` (set from
`getAttributes`); the two differ under `===`, but the only place this test
occurs is conjoined with the constantly-false `jsChildrenEqNull`, so the
conflation is unobservable. -/
def jsFilterAttributesEqNull : Option IAttribute → Bool
  | none => true
  | some _ => false

/-- Comment label derived from the (nearest-first) previous candidate
nodes: keep the comment-typed ones, clean each text (`Utils.cleanText`
with comment stripping), drop the ones that cleaned to `null`, reverse,
join with ", ". -/
def commentOfPrevs (previousNodes : List HtmlNode) : String :=
  String.intercalate ", "
    (((previousNodes.filter (fun x => x.typ == some "comment")).filterMap
      (fun x => cleanText (x.content.getD "") true)).reverse)

/-- The `parentNode.forEach` loop of `filterHtmlData`, fused with the
candidate filter: walk every node of the level, process the candidates,
and track the previous one and two candidates (`p1` nearest, `p2`
second-nearest) — which is what the source's backward scan by object
identity over `parentNode` computes for each node. Per candidate with a
children array: derive `comment` from the previous candidates, set
`order`, recurse (the inlined body of `filterHtmlData`) and keep only
element-typed results when the recursion returned a non-empty list, then
set `filterAttributes`; a candidate without a children array only gets
`filterAttributes`. The source then retains the node when
`filterAttributes !== null || children !== null`, whose second disjunct is
constantly true. -/
def filterGo : NodeList → Nat → Option HtmlNode → Option HtmlNode → NodeList
  | .nil, _, _, _ => .nil
  | .cons (HtmlNode.mk t tn attrs (some cs) cont cm od fa tx) tail, nestedOrder, p1, p2 =>
      let node := HtmlNode.mk t tn attrs (some cs) cont cm od fa tx
      if isCandidate node then
        let previousNodes := p1.toList ++ p2.toList
        let children0 :=
          if (cs.filter isCandidate).isEmpty then none
          else
            let elementList := filterGo cs (nestedOrder + 1) none none
            if elementList.isEmpty then none
            else some ((styleListOf cs).append elementList)
        let newChildren :=
          match children0 with
          | some l =>
              if !l.isEmpty then some (l.filter (fun x => x.typ == some "element"))
              else some cs
          | none => some cs
        let processed := HtmlNode.mk t tn attrs newChildren cont
          (some (commentOfPrevs previousNodes)) (some nestedOrder)
          (getAttributes attrs ["class", "style"]) tx
        let restResult := filterGo tail nestedOrder (some node) p1
        if processed.filterAttributes.isSome || jsChildrenNeNull processed.children then
          NodeList.cons processed restResult
        else restResult
      else filterGo tail nestedOrder p1 p2
  | .cons (HtmlNode.mk t tn attrs none cont cm od fa tx) tail, nestedOrder, p1, p2 =>
      let node := HtmlNode.mk t tn attrs none cont cm od fa tx
      if isCandidate node then
        let processed := HtmlNode.mk t tn attrs none cont cm od
          (getAttributes attrs ["class", "style"]) tx
        let restResult := filterGo tail nestedOrder (some node) p1
        if processed.filterAttributes.isSome || jsChildrenNeNull processed.children then
          NodeList.cons processed restResult
        else restResult
      else filterGo tail nestedOrder p1 p2

/-- Source `filterHtmlData` on a level's node list: `null` when the level
has no parent candidates or the processed list came out empty, and
otherwise the synthetic style nodes followed by the processed candidates. -/
def filterHtmlData (htmlJson : NodeList) (nestedOrder : Nat) : Option NodeList :=
  if (htmlJson.filter isCandidate).isEmpty then none
  else
    let elementList := filterGo htmlJson nestedOrder none none
    if elementList.isEmpty then none
    else some ((styleListOf htmlJson).append elementList)

/-- One iteration of the `forEach` body of `filterHtmlData` (candidate
node, previous candidates `p1`/`p2`), with the recursive call expressed
through the `filterHtmlData` wrapper. `filterGo` computes exactly this per
candidate (proved below). -/
def processOne (nestedOrder : Nat) (p1 p2 : Option HtmlNode) : HtmlNode → HtmlNode
  | HtmlNode.mk t tn attrs (some cs) cont _cm _od _fa tx =>
      let previousNodes := p1.toList ++ p2.toList
      let newChildren :=
        match filterHtmlData cs (nestedOrder + 1) with
        | some l =>
            if !l.isEmpty then some (l.filter (fun x => x.typ == some "element"))
            else some cs
        | none => some cs
      HtmlNode.mk t tn attrs newChildren cont
        (some (commentOfPrevs previousNodes)) (some nestedOrder)
        (getAttributes attrs ["class", "style"]) tx
  | HtmlNode.mk t tn attrs none cont cm od _fa tx =>
      HtmlNode.mk t tn attrs none cont cm od
        (getAttributes attrs ["class", "style"]) tx

/-- js-beautify CSS formatter options (source `CSSBeautifyOptions` usage);
the core only carries these through to the external beautifier. -/
structure FormatterOptions where
  indent_size : Nat
  indent_char : String
  max_preserve_newlines : Nat
  preserve_newlines : Bool
  end_with_newline : Bool
  wrap_line_length : Nat
  indent_empty_lines : Bool
deriving DecidableEq, Repr

/-- Name-slugging policy (source `classNameOptions`). The source fields
`prefix` and `suffix` are called `prefixStr` and `suffixStr` here. -/
structure ClassNameOptions where
  lowercase : Bool
  replaceWith : String
  prefixStr : String
  suffixStr : String
deriving DecidableEq, Repr

/-- Conversion options (source interface `ITwToSassOptions`). -/
structure TwToSassOptions where
  formatOutput : Bool
  useCommentBlocksAsClassName : Bool
  maxClassNameLength : Nat
  printComments : Bool
  formatterOptions : FormatterOptions
  classNameOptions : ClassNameOptions
deriving DecidableEq, Repr

/-- Caller-supplied option overrides: in JS the caller's object may carry
any subset of the option keys, and `{ ...defaults, ...options }` replaces
exactly the keys present. -/
structure OptionOverrides where
  formatOutput : Option Bool
  useCommentBlocksAsClassName : Option Bool
  maxClassNameLength : Option Nat
  printComments : Option Bool
  formatterOptions : Option FormatterOptions
  classNameOptions : Option ClassNameOptions
deriving DecidableEq, Repr

/-- The empty override object (no keys present). -/
def noOverrides : OptionOverrides :=
  { formatOutput := none, useCommentBlocksAsClassName := none,
    maxClassNameLength := none, printComments := none,
    formatterOptions := none, classNameOptions := none }

/-- Shallow merge `{ ...defaultOptions, ...options }`: each top-level key
present in the overrides replaces the default wholesale (nested objects
are not merged key-by-key). -/
def mergeOptions (defaults : TwToSassOptions) (o : OptionOverrides) : TwToSassOptions :=
  { formatOutput := o.formatOutput.getD defaults.formatOutput,
    useCommentBlocksAsClassName := o.useCommentBlocksAsClassName.getD defaults.useCommentBlocksAsClassName,
    maxClassNameLength := o.maxClassNameLength.getD defaults.maxClassNameLength,
    printComments := o.printComments.getD defaults.printComments,
    formatterOptions := o.formatterOptions.getD defaults.formatterOptions,
    classNameOptions := o.classNameOptions.getD defaults.classNameOptions }

/-- Default js-beautify options of the source (`formatterOptions`). -/
def formatterOptions : FormatterOptions :=
  { indent_size := 4, indent_char := " ", max_preserve_newlines := 5,
    preserve_newlines := true, end_with_newline := false,
    wrap_line_length := 0, indent_empty_lines := false }

/-- The module-level `defaultOptions` value as initialized in the source. -/
def defaultOptions : TwToSassOptions :=
  { formatOutput := true, useCommentBlocksAsClassName := false,
    maxClassNameLength := 50, printComments := true,
    formatterOptions := formatterOptions,
    classNameOptions :=
      { lowercase := true, replaceWith := "-", prefixStr := "", suffixStr := "" } }

/-- The cosmetic block-comment header `getClassName` may prepend:
`/* <comment-or-tagname> -> <order> */` when `printComments` is on. -/
def classCommentHeader (opts : TwToSassOptions) (node : HtmlNode) : String :=
  if opts.printComments then
    "/* " ++ (if jsTruthyS node.comment then node.comment.getD "" else jsStr node.tagName)
      ++ " -> " ++ jsNatStr node.order ++ " */"
  else ""

/-- Source `getClassName`: comment header plus the selector. When the node
has a truthy derived comment and `useCommentBlocksAsClassName` is on, a
class selector is built from prefix-plus-slug, truncated to
`maxClassNameLength` (JS `substring(0, max)`, modelled as `String.take`),
then suffixed. Otherwise a non-`div` tag becomes a bare type selector and
a `div` becomes `.class-div-<deepth>`. -/
def getClassName (opts : TwToSassOptions) (node : HtmlNode) (deepth : Nat) : String :=
  let classComment := classCommentHeader opts node
  if jsTruthyS node.comment && opts.useCommentBlocksAsClassName then
    let classSlug0 := opts.classNameOptions.prefixStr ++
      slug (node.comment.getD "") opts.classNameOptions.lowercase opts.classNameOptions.replaceWith
    let classSlug1 :=
      if classSlug0.length > opts.maxClassNameLength then
        classSlug0.take opts.maxClassNameLength
      else classSlug0
    let classSlug := classSlug1 ++ opts.classNameOptions.suffixStr
    classComment ++ "." ++ classSlug
  else if !(node.tagName == some "div") then
    classComment ++ jsStr node.tagName
  else
    classComment ++ ".class-" ++ jsStr node.tagName ++ "-" ++ toString deepth

/-- The node-local part of one `getSassTree` map step, for a node whose
nested text is `subTreeSTring` and with `deepth1` the (possibly
incremented) depth: returns the emitted text and the updated style-region
counter. Synthetic style nodes (`tagName == 'style' && filterAttributes`)
emit a `// #region STYLE #<n>` pass-through region; other nodes build the
`@apply`/inline-style body and emit `<selector>{<body><nested>}` only when
body or nested text is non-empty (the `null` the source returns otherwise
joins as ""). -/
def renderNode (opts : TwToSassOptions) (node : HtmlNode) (deepth1 : Nat)
    (subTreeSTring : String) (styleCount : Nat) : String × Nat :=
  if node.tagName == some "style" && node.filterAttributes.isSome then
    ("// #region STYLE #" ++ toString (styleCount + 1) ++ "\n" ++
      "\n" ++ jsStr (node.filterAttributes.bind (fun fa => fa.style)) ++ "\n" ++
      "// #endregion\n\n", styleCount + 1)
  else
    let treeSTring :=
      match node.filterAttributes with
      | some fa =>
          (match fa.classAttr with
           | some c => if c != "" then "@apply " ++ c ++ ";" else ""
           | none => "") ++
          (match fa.style with
           | some s => if s != "" then "\n" ++ addMissingSuffix s ";" ++ "\n" else ""
           | none => "")
      | none => ""
    if treeSTring.length != 0 || subTreeSTring.length != 0 then
      (getClassName opts node deepth1 ++ "\x7b" ++ treeSTring ++ subTreeSTring ++ "\x7d",
        styleCount)
    else ("", styleCount)

/-- The `nodeTree.map(...).join('')` body of `getSassTree`. `deepth` and
`styleCount` are the two variables the source mutates across the siblings
of one call: `deepth` is incremented once per sibling that has a non-empty
children array (before recursing into it) and the incremented value flows
on to the later siblings; `styleCount` counts the style regions emitted at
this level. The defensive skip
(`filterAttributes === null && children === null`) never fires because
`children` is never the JS `null`. -/
def getSassTreeGo (opts : TwToSassOptions) : NodeList → Nat → Nat → String
  | .nil, _, _ => ""
  | .cons (HtmlNode.mk t tn attrs (some cs) cont cm od fa tx) rest, deepth, styleCount =>
      let node := HtmlNode.mk t tn attrs (some cs) cont cm od fa tx
      if jsFilterAttributesEqNull node.filterAttributes && jsChildrenEqNull node.children then
        "" ++ getSassTreeGo opts rest deepth styleCount
      else
        let deepth1 := if !cs.isEmpty then deepth + 1 else deepth
        let subTreeSTring := if !cs.isEmpty then getSassTreeGo opts cs (deepth + 1) 0 else ""
        let step := renderNode opts node deepth1 subTreeSTring styleCount
        step.1 ++ getSassTreeGo opts rest deepth1 step.2
  | .cons (HtmlNode.mk t tn attrs none cont cm od fa tx) rest, deepth, styleCount =>
      let node := HtmlNode.mk t tn attrs none cont cm od fa tx
      if jsFilterAttributesEqNull node.filterAttributes && jsChildrenEqNull node.children then
        "" ++ getSassTreeGo opts rest deepth styleCount
      else
        let step := renderNode opts node deepth "" styleCount
        step.1 ++ getSassTreeGo opts rest deepth step.2

/-- Source `getSassTree` on a node list (the single-node call form of the
source immediately recurses on the node's children, which is inlined in
`getSassTreeGo`); `deepth` starts as given (0 at the top), the style
counter at 0. -/
def getSassTree (opts : TwToSassOptions) (nodeTree : NodeList) (deepth : Nat) : String :=
  getSassTreeGo opts nodeTree deepth 0

/-- Result of one `convertToSass` call: the returned value, the
module-level `defaultOptions` after the call (the source mutates it), and
whether the call reached the text-cleaning/parsing stage (i.e. passed the
`html && html.length` guard). -/
structure ConvertResult where
  result : Option String
  newDefaults : TwToSassOptions
  parserInvoked : Bool

/-- The conversion work `convertToSass` performs once the guard passed and
the options were resolved: normalize the parse tree, render the SASS tree,
and either hand it to the external beautifier plus `@apply` fix-up
(`formatOutput === true`) or return it raw; `null` when normalization
returned `null`. `beautify` and `fixApply` stand for the external
`beautifyCss.css(_, formatterOptions)` and `Utils.fixFomatterApplyIssue`
collaborators. -/
def convertCore (beautify fixApply : String → String) (opts : TwToSassOptions)
    (parseTree : NodeList) : Option String :=
  match filterHtmlData parseTree 1 with
  | some filteredHtmlData =>
      let sassTreeResult := getSassTree opts filteredHtmlData 0
      if opts.formatOutput then some (fixApply (beautify sassTreeResult))
      else some sassTreeResult
  | none => none

/-- Source `convertToSass`. `html` is `Option String` (`none` is JS
`null`); the guard `html && html.length` rejects `null` and `""`. Inside
the guard the supplied options (if any) are shallow-merged into the
module-level defaults before any conversion work, the input is cleaned
(`Utils.cleanText`) and handed to the external parser — `parseTree`
stands for the parser's response — and the pipeline runs under the merged
options, which also persist as the new defaults. -/
def convertToSass (beautify fixApply : String → String)
    (defaults : TwToSassOptions) (html : Option String)
    (options : Option OptionOverrides) (parseTree : NodeList) : ConvertResult :=
  match html with
  | some h =>
      if h.length != 0 then
        let opts :=
          match options with
          | some o => mergeOptions defaults o
          | none => defaults
        { result := convertCore beautify fixApply opts parseTree,
          newDefaults := opts, parserInvoked := true }
      else { result := none, newDefaults := defaults, parserInvoked := false }
  | none => { result := none, newDefaults := defaults, parserInvoked := false }

/-! ### Parser-shaped sample nodes for concrete runs -/

/-- An element node as the external parser produces it: `type` is
"element", `attributes` and `children` are (possibly empty) arrays, and
the enrichment fields are absent. -/
def elNode (tag : String) (attrs : List IHtmlNodeAttribute) (ch : NodeList) : HtmlNode :=
  HtmlNode.mk (some "element") (some tag) (some attrs) (some ch) none none none none none

/-- A text node as the external parser produces it. -/
def textNode (s : String) : HtmlNode :=
  HtmlNode.mk (some "text") none none none (some s) none none none none

/-- A comment node as the external parser produces it. -/
def commentNode (s : String) : HtmlNode :=
  HtmlNode.mk (some "comment") none none none (some s) none none none none

/-- The nearest previous candidate of the `j`-th candidate, when the walk
started with `p1` as nearest previous candidate. -/
def prevAt1 (cands : NodeList) (p1 : Option HtmlNode) : Nat → Option HtmlNode
  | 0 => p1
  | j + 1 => cands.get? j

/-- The second-nearest previous candidate of the `j`-th candidate, when
the walk started with previous candidates `p1` (nearest) and `p2`. -/
def prevAt2 (cands : NodeList) (p1 p2 : Option HtmlNode) : Nat → Option HtmlNode
  | 0 => p2
  | 1 => p1
  | j + 2 => cands.get? j

/-- The pass-through region emitted for the `n`-th style node of a level:
`// #region STYLE #<n>`, the raw style text, `// #endregion`. -/
def styleRegion (n : Nat) (s : String) : String :=
  "// #region STYLE #" ++ toString n ++ "\n" ++ "\n" ++ s ++ "\n" ++ "// #endregion\n\n"

/-- A node (and, hereditarily, its children) that carries no styling
information: not a `style` tag, no `class`/`style` attribute key, and a
`filterAttributes` field that is absent or `{ style: null, class: null }`.
Parser output for HTML without `class`/`style` attributes and without
`<style>` elements satisfies this (parser nodes have no
`filterAttributes` field at all). -/
inductive Unstyled : HtmlNode → Prop where
  | intro (t tn : Option String) (attrs : Option (List IHtmlNodeAttribute))
      (ch : Option NodeList) (cont cm : Option String) (od : Option Nat)
      (fa : Option IAttribute) (tx : Option String)
      (htn : tn ≠ some "style")
      (hattrs : ∀ l, attrs = some l → ∀ a ∈ l, a.key ≠ "class" ∧ a.key ≠ "style")
      (hfa : fa = none ∨ fa = some { style := none, classAttr := none })
      (hch : ∀ cs, ch = some cs → ∀ c ∈ cs.toList, Unstyled c) :
      Unstyled (HtmlNode.mk t tn attrs ch cont cm od fa tx)

/-- The class selector exactly as claim C6 words it: slugify the
comment, truncate THE SLUG to `maxClassNameLength` characters, and then
wrap the truncated slug with the configured prefix and suffix. -/
def claimedSelector (opts : TwToSassOptions) (node : HtmlNode) : String :=
  "." ++ opts.classNameOptions.prefixStr ++
    (slug (node.comment.getD "") opts.classNameOptions.lowercase
      opts.classNameOptions.replaceWith).take opts.maxClassNameLength ++
    opts.classNameOptions.suffixStr

/-- The style concatenation exactly as claim C7 words it: the contents of
only the text-typed children, in document order, with no separator. -/
def textOnlyContents (element : HtmlNode) : String :=
  String.join (((element.children.getD .nil).toList.filter
    (fun x => x.typ == some "text")).map (fun x => x.content.getD ""))

/-- A configuration with a non-empty class-name prefix and a small length
cap, used to separate the source's truncation order from the claimed
one. -/
def c6Options : TwToSassOptions :=
  { formatOutput := false, useCommentBlocksAsClassName := true, maxClassNameLength := 5,
    printComments := false, formatterOptions := formatterOptions,
    classNameOptions :=
      { lowercase := true, replaceWith := "-", prefixStr := "pre-", suffixStr := "" } }

/-- A normalized `div` node whose derived comment is "abcdef". -/
def c6Node : HtmlNode :=
  HtmlNode.mk (some "element") (some "div") (some []) (some .nil) none
    (some "abcdef") (some 1) none none

/-! ### Recursion equations and basic lemmas for the normalizer -/

/-- List-style induction principle for `NodeList` (the default eliminator
of the mutual family has several motives, which the `induction` tactic
does not accept). -/
theorem NodeList.recAux {motive : NodeList → Prop} (nil : motive .nil)
    (cons : ∀ n rest, motive rest → motive (.cons n rest)) : ∀ l, motive l
  | .nil => nil
  | .cons n rest => cons n rest (NodeList.recAux nil cons rest)

/-- `filterGo` on the empty level. -/
theorem filterGo_nil (nestedOrder : Nat) (p1 p2 : Option HtmlNode) :
    filterGo .nil nestedOrder p1 p2 = .nil := rfl

/-- One step of `filterGo`: a candidate head is processed by the
`forEach` body (`processOne`) with the current previous-candidate pair and
is always retained (the retention check's `children !== null` disjunct is
constantly true); a non-candidate head is skipped without touching the
previous-candidate pair. -/
theorem filterGo_cons (node : HtmlNode) (tail : NodeList) (nestedOrder : Nat)
    (p1 p2 : Option HtmlNode) :
    filterGo (.cons node tail) nestedOrder p1 p2 =
      if isCandidate node then
        NodeList.cons (processOne nestedOrder p1 p2 node)
          (filterGo tail nestedOrder (some node) p1)
      else filterGo tail nestedOrder p1 p2 := by
  cases node with
  | mk t tn attrs ch cont cm od fa tx =>
    cases ch with
    | some cs =>
        simp only [filterGo, processOne, filterHtmlData, jsChildrenNeNull, Bool.or_true,
          if_true]
    | none =>
        simp only [filterGo, processOne, jsChildrenNeNull, Bool.or_true, if_true]

/-- Nothing is dropped: `filterGo` returns one processed node per
candidate of the level. -/
theorem filterGo_length (nodes : NodeList) : ∀ (nestedOrder : Nat) (p1 p2 : Option HtmlNode),
    (filterGo nodes nestedOrder p1 p2).length = (nodes.filter isCandidate).length := by
  induction nodes using NodeList.recAux with
  | nil => intro nestedOrder p1 p2; rfl
  | cons node tail ih =>
      intro nestedOrder p1 p2
      rw [filterGo_cons]
      by_cases h : isCandidate node
      · simp only [h, if_true, NodeList.filter, NodeList.length, ih]
      · simp only [h, if_false, NodeList.filter, Bool.false_eq_true, ih]

/-- Positional description of `filterGo`: the `j`-th output node is the
`forEach` body applied to the `j`-th candidate with exactly its (at most
two) nearest previous candidates. -/
theorem filterGo_get (nodes : NodeList) :
    ∀ (nestedOrder : Nat) (p1 p2 : Option HtmlNode) (j : Nat),
    (filterGo nodes nestedOrder p1 p2).get? j =
      ((nodes.filter isCandidate).get? j).map
        (processOne nestedOrder (prevAt1 (nodes.filter isCandidate) p1 j)
          (prevAt2 (nodes.filter isCandidate) p1 p2 j)) := by
  induction nodes using NodeList.recAux with
  | nil => intro nestedOrder p1 p2 j; rfl
  | cons node tail ih =>
      intro nestedOrder p1 p2 j
      rw [filterGo_cons]
      by_cases h : isCandidate node
      · simp only [h, if_true, NodeList.filter]
        rcases j with _ | _ | j
        · rfl
        · simp only [NodeList.get?, ih, prevAt1, prevAt2]
        · simp only [NodeList.get?, ih, prevAt1, prevAt2]
          rcases j with _ | j <;> simp [NodeList.get?]
      · simp only [h, if_false, NodeList.filter, Bool.false_eq_true, ih]

/-- `toList` commutes with `filter`. -/
theorem NodeList.toList_filter (p : HtmlNode → Bool) (l : NodeList) :
    (l.filter p).toList = l.toList.filter p := by
  induction l using NodeList.recAux with
  | nil => rfl
  | cons n rest ih =>
      by_cases h : p n
      · simp [NodeList.filter, NodeList.toList, List.filter, h, ih]
      · simp [NodeList.filter, NodeList.toList, List.filter, h, ih]

/-- `toList` commutes with `append`. -/
theorem NodeList.toList_append (a b : NodeList) :
    (a.append b).toList = a.toList ++ b.toList := by
  induction a using NodeList.recAux with
  | nil => rfl
  | cons n rest ih => simp [NodeList.append, NodeList.toList, ih]

/-- A `NodeList` is `isEmpty` exactly when it is `nil`. -/
theorem NodeList.isEmpty_eq_true (l : NodeList) : l.isEmpty = true ↔ l = .nil := by
  cases l <;> simp [NodeList.isEmpty]

/-- A `NodeList` has length `0` exactly when it is `nil`. -/
theorem NodeList.length_eq_zero (l : NodeList) : l.length = 0 ↔ l = .nil := by
  cases l <;> simp [NodeList.length]

/-! ### Rendering lemmas for `getSassTree` -/

/-- A synthetic style node at the head of a level emits exactly its
pass-through region (with the style counter bumped) followed by the rest
of the level; it is never wrapped in a selector block. -/
theorem getSassTreeGo_styleNode (opts : TwToSassOptions) (s : String)
    (rest : NodeList) (deepth styleCount : Nat) :
    getSassTreeGo opts (.cons (syntheticStyleNode s) rest) deepth styleCount =
      styleRegion (styleCount + 1) s ++ getSassTreeGo opts rest deepth (styleCount + 1) := by
  simp [getSassTreeGo, syntheticStyleNode, renderNode, jsFilterAttributesEqNull,
    jsChildrenEqNull, jsStr, styleRegion, HtmlNode.tagName, HtmlNode.filterAttributes,
    HtmlNode.children]

/-! ### Inputs that carry no styling information -/

/-- An unstyled node is not a style tag. -/
theorem Unstyled.tagName_ne {n : HtmlNode} (h : Unstyled n) : n.tagName ≠ some "style" := by
  cases h; simpa [HtmlNode.tagName]

/-- An unstyled node's `filterAttributes` is absent or empty. -/
theorem Unstyled.fa_cases {n : HtmlNode} (h : Unstyled n) :
    n.filterAttributes = none ∨
      n.filterAttributes = some { style := none, classAttr := none } := by
  cases h; simpa [HtmlNode.filterAttributes]

/-- An unstyled node's raw attributes contain no `class`/`style` key. -/
theorem Unstyled.attrs_clean {n : HtmlNode} (h : Unstyled n) :
    ∀ l, n.attributes = some l → ∀ a ∈ l, a.key ≠ "class" ∧ a.key ≠ "style" := by
  cases h; simpa [HtmlNode.attributes]

/-- An unstyled node's children are unstyled. -/
theorem Unstyled.children_unstyled {n : HtmlNode} (h : Unstyled n) :
    ∀ cs, n.children = some cs → ∀ c ∈ cs.toList, Unstyled c := by
  cases h; simpa [HtmlNode.children]

/-- On an attribute list without `class`/`style` keys, `getAttributes`
returns `null` (field absent) or the empty `{ style: null, class: null }`. -/
theorem getAttributes_unstyled (attrs : Option (List IHtmlNodeAttribute))
    (h : ∀ l, attrs = some l → ∀ a ∈ l, a.key ≠ "class" ∧ a.key ≠ "style") :
    getAttributes attrs ["class", "style"] = none ∨
      getAttributes attrs ["class", "style"] = some { style := none, classAttr := none } := by
  cases attrs with
  | none => exact Or.inl rfl
  | some l =>
      right
      have hfil : l.filter (fun a => (["class", "style"]).contains a.key) = [] := by
        rw [List.filter_eq_nil_iff]
        intro a ha
        have hk := h l rfl a ha
        have h1 : (a.key == "class") = false := by
          simp only [beq_eq_false_iff_ne]; exact hk.1
        have h2 : (a.key == "style") = false := by
          simp only [beq_eq_false_iff_ne]; exact hk.2
        simp [List.contains, List.elem, h1, h2]
      simp only [getAttributes]
      rw [hfil]
      rfl

/-- A level whose nodes are all unstyled contributes no synthetic style
nodes. -/
theorem styleListOf_unstyled (nodes : NodeList)
    (h : ∀ n ∈ nodes.toList, Unstyled n) : styleListOf nodes = .nil := by
  have hfil : nodes.filter isStyleTag = .nil := by
    induction nodes using NodeList.recAux with
    | nil => rfl
    | cons n rest ih =>
        have hn : Unstyled n := h n (by simp [NodeList.toList])
        have : isStyleTag n = false := by
          simp [isStyleTag, beq_eq_false_iff_ne]
          exact fun hc => hn.tagName_ne hc
        simp only [NodeList.filter, this, Bool.false_eq_true, if_false]
        exact ih (fun m hm => h m (by simp [NodeList.toList]; right; exact hm))
  simp [styleListOf, hfil, NodeList.isEmpty]

/-- The `forEach` body maps an unstyled candidate to an unstyled node,
provided the recursive normalization of its children yields unstyled
nodes. -/
theorem processOne_unstyled (nestedOrder : Nat) (p1 p2 : Option HtmlNode) (node : HtmlNode)
    (h : Unstyled node)
    (hrec : ∀ cs, node.children = some cs →
      ∀ m ∈ (filterGo cs (nestedOrder + 1) none none).toList, Unstyled m) :
    Unstyled (processOne nestedOrder p1 p2 node) := by
  cases node with
  | mk t tn attrs ch cont cm od fa tx =>
    have htn : tn ≠ some "style" := by
      have := h.tagName_ne; simpa [HtmlNode.tagName] using this
    have hattrs : ∀ l, attrs = some l → ∀ a ∈ l, a.key ≠ "class" ∧ a.key ≠ "style" := by
      have := h.attrs_clean; simpa [HtmlNode.attributes] using this
    cases ch with
    | none =>
        simp only [processOne]
        exact Unstyled.intro _ _ _ _ _ _ _ _ _ htn hattrs
          (getAttributes_unstyled attrs hattrs) (fun cs hcs => by cases hcs)
    | some cs =>
        have hcs : ∀ c ∈ cs.toList, Unstyled c := by
          have := h.children_unstyled
          simp only [HtmlNode.children] at this
          exact this cs rfl
        have hrec2 : ∀ m ∈ (filterGo cs (nestedOrder + 1) none none).toList, Unstyled m :=
          hrec cs (by simp [HtmlNode.children])
        simp only [processOne]
        refine Unstyled.intro _ _ _ _ _ _ _ _ _ htn hattrs
          (getAttributes_unstyled attrs hattrs) ?_
        intro cs2 hcs2 c hc
        revert hcs2
        cases hf : filterHtmlData cs (nestedOrder + 1) with
        | none =>
            intro hcs2
            cases hcs2
            exact hcs c hc
        | some L =>
            have hL : L = filterGo cs (nestedOrder + 1) none none := by
              simp only [filterHtmlData] at hf
              by_cases h1 : (cs.filter isCandidate).isEmpty = true
              · rw [if_pos h1] at hf; cases hf
              · rw [if_neg h1] at hf
                by_cases h2 : (filterGo cs (nestedOrder + 1) none none).isEmpty = true
                · rw [if_pos h2] at hf; cases hf
                · rw [if_neg h2] at hf
                  injection hf with hf
                  rw [← hf, styleListOf_unstyled cs hcs]
                  rfl
            cases hemp : L.isEmpty with
            | true =>
                intro hcs2
                simp only [hemp, Bool.not_true, Bool.false_eq_true, if_false] at hcs2
                cases hcs2
                exact hcs c hc
            | false =>
                intro hcs2
                simp only [hemp, Bool.not_false, if_true] at hcs2
                cases hcs2
                rw [NodeList.toList_filter] at hc
                have hmem := List.mem_of_mem_filter hc
                rw [hL] at hmem
                exact hrec2 c hmem

/-- Normalization preserves unstyledness. -/
theorem filterGo_unstyled (nodes : NodeList) (nestedOrder : Nat) (p1 p2 : Option HtmlNode) :
    (∀ n ∈ nodes.toList, Unstyled n) →
    ∀ m ∈ (filterGo nodes nestedOrder p1 p2).toList, Unstyled m := by
  induction nodes, nestedOrder, p1, p2 using filterGo.induct with
  | case1 x x1 x2 =>
      intro _ m hm
      simp [filterGo_nil, NodeList.toList] at hm
  | case2 t tn attrs cs cont cm od fa tx tail nestedOrder p1 p2 node hcand pn c0 nc
      processed hret ihcs ihtail =>
      have hcand2 : isCandidate (HtmlNode.mk t tn attrs (some cs) cont cm od fa tx) = true :=
        hcand
      have ihcs2 : (∀ n ∈ cs.toList, Unstyled n) →
          ∀ m ∈ (filterGo cs (nestedOrder + 1) none none).toList, Unstyled m := ihcs
      have ihtail2 : (∀ n ∈ tail.toList, Unstyled n) →
          ∀ m ∈ (filterGo tail nestedOrder
            (some (HtmlNode.mk t tn attrs (some cs) cont cm od fa tx)) p1).toList,
          Unstyled m := ihtail
      intro h m hm
      rw [filterGo_cons] at hm
      simp only [hcand2, if_true, NodeList.toList, List.mem_cons] at hm
      rcases hm with rfl | hm
      · refine processOne_unstyled _ _ _ _ (h _ (by simp [NodeList.toList])) ?_
        intro cs2 hcs2
        simp only [HtmlNode.children] at hcs2
        cases hcs2
        refine ihcs2 ?_
        intro c hc
        have hu := (h _ (List.mem_cons_self _ _)).children_unstyled
        simp only [HtmlNode.children] at hu
        exact hu _ rfl c hc
      · exact ihtail2 (fun n hn => h n (by simp [NodeList.toList]; right; exact hn)) m hm
  | case3 t tn attrs cs cont cm od fa tx tail nestedOrder p1 p2 node hcand pn c0 nc
      processed hret ihcs ihtail =>
      exfalso
      simp [jsChildrenNeNull] at hret
  | case4 t tn attrs cs cont cm od fa tx tail nestedOrder p1 p2 node hcand ihtail =>
      have hcand2 : isCandidate (HtmlNode.mk t tn attrs (some cs) cont cm od fa tx) = false := by
        simpa using hcand
      have ihtail2 : (∀ n ∈ tail.toList, Unstyled n) →
          ∀ m ∈ (filterGo tail nestedOrder p1 p2).toList, Unstyled m := ihtail
      intro h m hm
      rw [filterGo_cons] at hm
      simp only [hcand2, Bool.false_eq_true, if_false] at hm
      exact ihtail2 (fun n hn => h n (by simp [NodeList.toList]; right; exact hn)) m hm
  | case5 t tn attrs cont cm od fa tx tail nestedOrder p1 p2 node hcand processed hret ihtail =>
      have hcand2 : isCandidate (HtmlNode.mk t tn attrs none cont cm od fa tx) = true := hcand
      have ihtail2 : (∀ n ∈ tail.toList, Unstyled n) →
          ∀ m ∈ (filterGo tail nestedOrder
            (some (HtmlNode.mk t tn attrs none cont cm od fa tx)) p1).toList,
          Unstyled m := ihtail
      intro h m hm
      rw [filterGo_cons] at hm
      simp only [hcand2, if_true, NodeList.toList, List.mem_cons] at hm
      rcases hm with rfl | hm
      · refine processOne_unstyled _ _ _ _ (h _ (by simp [NodeList.toList])) ?_
        intro cs2 hcs2
        simp only [HtmlNode.children] at hcs2
        exact absurd hcs2 (by simp)
      · exact ihtail2 (fun n hn => h n (by simp [NodeList.toList]; right; exact hn)) m hm
  | case6 t tn attrs cont cm od fa tx tail nestedOrder p1 p2 node hcand processed hret ihtail =>
      exfalso
      simp [jsChildrenNeNull] at hret
  | case7 t tn attrs cont cm od fa tx tail nestedOrder p1 p2 node hcand ihtail =>
      have hcand2 : isCandidate (HtmlNode.mk t tn attrs none cont cm od fa tx) = false := by
        simpa using hcand
      have ihtail2 : (∀ n ∈ tail.toList, Unstyled n) →
          ∀ m ∈ (filterGo tail nestedOrder p1 p2).toList, Unstyled m := ihtail
      intro h m hm
      rw [filterGo_cons] at hm
      simp only [hcand2, Bool.false_eq_true, if_false] at hm
      exact ihtail2 (fun n hn => h n (by simp [NodeList.toList]; right; exact hn)) m hm

/-- An unstyled node emits nothing on its own: no style region, and an
empty `@apply`/inline-style body, so no selector block when the nested
text is empty too. -/
theorem renderNode_unstyled (opts : TwToSassOptions) (node : HtmlNode)
    (h : Unstyled node) (deepth1 styleCount : Nat) :
    renderNode opts node deepth1 "" styleCount = ("", styleCount) := by
  have htag : (node.tagName == some "style") = false := by
    simp only [beq_eq_false_iff_ne]
    exact h.tagName_ne
  unfold renderNode
  rw [htag]
  simp only [Bool.false_and, Bool.false_eq_true, if_false]
  rcases h.fa_cases with hfa | hfa <;> simp [hfa]

/-- A level of unstyled nodes renders to the empty stylesheet. -/
theorem getSassTreeGo_unstyled (opts : TwToSassOptions) (nodes : NodeList)
    (deepth styleCount : Nat) :
    (∀ n ∈ nodes.toList, Unstyled n) → getSassTreeGo opts nodes deepth styleCount = "" := by
  induction nodes, deepth, styleCount using getSassTreeGo.induct opts with
  | case1 x x1 => intro _; rfl
  | case2 t tn attrs cs cont cm od fa tx rest deepth styleCount node hcond ihrest =>
      exfalso
      have hcond2 : (jsFilterAttributesEqNull
          (HtmlNode.mk t tn attrs (some cs) cont cm od fa tx).filterAttributes &&
          jsChildrenEqNull (HtmlNode.mk t tn attrs (some cs) cont cm od fa tx).children)
          = true := hcond
      simp [jsChildrenEqNull] at hcond2
  | case3 t tn attrs cs cont cm od fa tx rest deepth styleCount node hcond deepth1
      subTreeSTring step ihcs ihrest =>
      intro h
      have hnode : Unstyled (HtmlNode.mk t tn attrs (some cs) cont cm od fa tx) :=
        h _ (by simp [NodeList.toList])
      have ihcs2 : (∀ n ∈ cs.toList, Unstyled n) →
          getSassTreeGo opts cs (deepth + 1) 0 = "" := ihcs
      have hsub : (if !cs.isEmpty then getSassTreeGo opts cs (deepth + 1) 0 else "") = "" := by
        cases hemp : cs.isEmpty with
        | true => simp [hemp]
        | false =>
            simp only [hemp, Bool.not_false, if_true]
            refine ihcs2 ?_
            intro c hc
            have hu := hnode.children_unstyled
            simp only [HtmlNode.children] at hu
            exact hu _ rfl c hc
      unfold step subTreeSTring deepth1 node at ihrest
      have ih2 := ihrest (fun n hn => h n (by simp [NodeList.toList]; right; exact hn))
      rw [hsub, renderNode_unstyled opts _ hnode] at ih2
      simp only [getSassTreeGo, jsChildrenEqNull, Bool.and_false, Bool.false_eq_true,
        if_false]
      rw [hsub, renderNode_unstyled opts _ hnode]
      show ("" : String) ++ _ = ""
      rw [show getSassTreeGo opts rest
          (if !cs.isEmpty then deepth + 1 else deepth) styleCount = "" from ih2]
      rfl
  | case4 t tn attrs cont cm od fa tx rest deepth styleCount node hcond ihrest =>
      exfalso
      have hcond2 : (jsFilterAttributesEqNull
          (HtmlNode.mk t tn attrs none cont cm od fa tx).filterAttributes &&
          jsChildrenEqNull (HtmlNode.mk t tn attrs none cont cm od fa tx).children)
          = true := hcond
      simp [jsChildrenEqNull] at hcond2
  | case5 t tn attrs cont cm od fa tx rest deepth styleCount node hcond step ihrest =>
      intro h
      have hnode : Unstyled (HtmlNode.mk t tn attrs none cont cm od fa tx) :=
        h _ (by simp [NodeList.toList])
      unfold step node at ihrest
      have ih2 := ihrest (fun n hn => h n (by simp [NodeList.toList]; right; exact hn))
      rw [renderNode_unstyled opts _ hnode] at ih2
      simp only [getSassTreeGo, jsChildrenEqNull, Bool.and_false, Bool.false_eq_true,
        if_false]
      rw [renderNode_unstyled opts _ hnode]
      show ("" : String) ++ _ = ""
      rw [show getSassTreeGo opts rest deepth styleCount = "" from ih2]
      rfl

/-- When `filterHtmlData` retains anything, its value is the level's
synthetic style nodes followed by the processed candidates. -/
theorem filterHtmlData_some {nodes : NodeList} {nestedOrder : Nat} {L : NodeList}
    (hf : filterHtmlData nodes nestedOrder = some L) :
    L = (styleListOf nodes).append (filterGo nodes nestedOrder none none) := by
  simp only [filterHtmlData] at hf
  by_cases h1 : (nodes.filter isCandidate).isEmpty = true
  · rw [if_pos h1] at hf; cases hf
  · rw [if_neg h1] at hf
    by_cases h2 : (filterGo nodes nestedOrder none none).isEmpty = true
    · rw [if_pos h2] at hf; cases hf
    · rw [if_neg h2] at hf
      injection hf with hf
      exact hf.symm

/-! ### The claims -/

/-- C3. For every parent-candidate node processed by normalization (the
`j`-th candidate of its level, provided it carries a children array), the
derived `comment` field equals the cleaned texts of the comment-typed
nodes among its at most two immediately preceding candidates at the same
level (empties discarded), collected nearest-first by the backward scan,
then reversed, then joined with ", " — so with two preceding comments the
farther one comes first; no non-adjacent or following node contributes
(`prevAt1`/`prevAt2` at the top of the walk pick out exactly the
candidates at positions `j-1` and `j-2`). -/
theorem c3_theorem (nodes : NodeList) (nestedOrder j : Nat) (nd : HtmlNode)
    (hj : (nodes.filter isCandidate).get? j = some nd)
    (hch : nd.children.isSome = true) :
    ((filterGo nodes nestedOrder none none).get? j).bind HtmlNode.comment =
      some (commentOfPrevs
        ((prevAt1 (nodes.filter isCandidate) none j).toList ++
         (prevAt2 (nodes.filter isCandidate) none none j).toList)) := by
  rw [filterGo_get, hj]
  cases nd with
  | mk t tn attrs ch cont cm od fa tx =>
      cases ch with
      | none => simp [HtmlNode.children] at hch
      | some cs => simp [processOne, HtmlNode.comment, Option.map, Option.bind]

/-- C3 witness: two comments `" A "` and `"B"` precede a `div`; the
derived comment is "A, B" — the farther comment first. -/
theorem c3_witness :
    ((NodeList.cons (commentNode " A ") (.cons (commentNode "B")
        (.cons (elNode "div" [] .nil) .nil))).filter isCandidate).get? 2
        = some (elNode "div" [] .nil) ∧
    (elNode "div" [] .nil).children.isSome = true ∧
    ((filterGo (NodeList.cons (commentNode " A ") (.cons (commentNode "B")
        (.cons (elNode "div" [] .nil) .nil))) 1 none none).get? 2).bind HtmlNode.comment =
      some (commentOfPrevs
        ((prevAt1 ((NodeList.cons (commentNode " A ") (.cons (commentNode "B")
            (.cons (elNode "div" [] .nil) .nil))).filter isCandidate) none 2).toList ++
         (prevAt2 ((NodeList.cons (commentNode " A ") (.cons (commentNode "B")
            (.cons (elNode "div" [] .nil) .nil))).filter isCandidate) none none 2).toList)) ∧
    ((filterGo (NodeList.cons (commentNode " A ") (.cons (commentNode "B")
        (.cons (elNode "div" [] .nil) .nil))) 1 none none).get? 2).bind HtmlNode.comment
      = some "A, B" :=
  ⟨rfl, rfl,
    c3_theorem (NodeList.cons (commentNode " A ") (.cons (commentNode "B")
      (.cons (elNode "div" [] .nil) .nil))) 1 2 (elNode "div" [] .nil) rfl rfl,
    by decide⟩

/-- C4 counterexample: a `div` with only an `id` attribute (no `class`,
no `style`, empty children list) is NOT dropped by normalization and its
`filterAttributes` is NOT `null` — it is retained with the empty
`{ style: null, class: null }`, contradicting the claim that
`filterAttributes` is null exactly when the node carries neither a
`class` nor a `style` attribute and that every such node is dropped. -/
theorem c4_counterexample :
    (filterHtmlData (.cons (elNode "div" [IHtmlNodeAttribute.mk "id" "x"] .nil) .nil) 1).map
        NodeList.length = some 1 ∧
    (((filterHtmlData (.cons (elNode "div" [IHtmlNodeAttribute.mk "id" "x"] .nil) .nil) 1).getD
        .nil).get? 0).map HtmlNode.filterAttributes
      = some (some { style := none, classAttr := none }) ∧
    (some { style := none, classAttr := none } : Option IAttribute) ≠ none :=
  ⟨rfl, rfl, by decide⟩

/-- C4 (amended). Every node present in the list returned by
normalization has non-null `filterAttributes` or a non-null children
field — vacuously, since the children field is never the JS `null`, so no
parent candidate is ever dropped (`filterGo` keeps one node per
candidate); and `filterAttributes` is null exactly when the node has no
raw `attributes` field at all (as comment nodes do), not when it merely
lacks `class`/`style` attributes. -/
theorem c4_theorem :
    (∀ (attributes : Option (List IHtmlNodeAttribute)) (keys : List String),
      getAttributes attributes keys = none ↔ attributes = none) ∧
    (∀ (nodes : NodeList) (nestedOrder : Nat) (p1 p2 : Option HtmlNode),
      (filterGo nodes nestedOrder p1 p2).length = (nodes.filter isCandidate).length) := by
  constructor
  · intro attributes keys
    cases attributes <;> simp [getAttributes]
  · exact fun nodes => filterGo_length nodes

/-- C5. For every node with no usable derived comment (comment falsy or
`useCommentBlocksAsClassName` off), the synthesized selector is the bare
tag name when the tag is not the generic container `div`, and
`.class-<tag>-<deepth>` when it is `div`; the cosmetic comment header is
prepended when `printComments` is on. -/
theorem c5_theorem (opts : TwToSassOptions) (node : HtmlNode) (deepth : Nat) (tg : String)
    (hcm : jsTruthyS node.comment = false ∨ opts.useCommentBlocksAsClassName = false)
    (htag : node.tagName = some tg) :
    getClassName opts node deepth =
      classCommentHeader opts node ++
        (if tg = "div" then ".class-" ++ tg ++ "-" ++ toString deepth else tg) := by
  unfold getClassName
  have hcond : (jsTruthyS node.comment && opts.useCommentBlocksAsClassName) = false := by
    rcases hcm with h | h <;> simp [h]
  rw [hcond]
  simp only [Bool.false_eq_true, if_false]
  by_cases hdiv : tg = "div"
  · subst hdiv
    simp [htag, jsStr, String.append_assoc]
  · have : (node.tagName == some "div") = false := by
      simp only [htag, beq_eq_false_iff_ne]
      intro hc
      exact hdiv (by injection hc)
    simp [this, htag, jsStr, hdiv]

/-- C5 witness: a parser-shaped `button` yields the bare `button`
selector and a parser-shaped `div` yields `.class-div-3` at depth 3. -/
theorem c5_witness :
    (jsTruthyS (elNode "button" [] .nil).comment = false ∨
      defaultOptions.useCommentBlocksAsClassName = false) ∧
    (elNode "button" [] .nil).tagName = some "button" ∧
    getClassName defaultOptions (elNode "button" [] .nil) 3 =
      classCommentHeader defaultOptions (elNode "button" [] .nil) ++
        (if "button" = "div" then ".class-" ++ "button" ++ "-" ++ toString 3 else "button") ∧
    getClassName defaultOptions (elNode "div" [] .nil) 3 =
      classCommentHeader defaultOptions (elNode "div" [] .nil) ++
        (if "div" = "div" then ".class-" ++ "div" ++ "-" ++ toString 3 else "div") ∧
    getClassName defaultOptions (elNode "button" [] .nil) 3
      = "/* button -> undefined */button" ∧
    getClassName defaultOptions (elNode "div" [] .nil) 3
      = "/* div -> undefined */.class-div-3" :=
  ⟨Or.inl rfl, rfl,
    c5_theorem defaultOptions (elNode "button" [] .nil) 3 "button" (Or.inl rfl) rfl,
    c5_theorem defaultOptions (elNode "div" [] .nil) 3 "div" (Or.inl rfl) rfl,
    rfl, rfl⟩

/-- C1 counterexample: `<div></div>` parses to one element with an empty
attribute array and an empty children array; it carries no `class`/`style`
attribute and there is no `<style>` block, yet `convertToSass` (here with
`formatOutput` off, so no external beautifier is involved) returns the
empty string, not `null`. -/
theorem c1_counterexample :
    (convertToSass id id defaultOptions (some "<div></div>")
      (some { noOverrides with formatOutput := some false })
      (NodeList.cons (elNode "div" [] .nil) .nil)).result = some "" ∧
    (convertToSass id id defaultOptions (some "<div></div>")
      (some { noOverrides with formatOutput := some false })
      (NodeList.cons (elNode "div" [] .nil) .nil)).result ≠ none := by
  have h : (convertToSass id id defaultOptions (some "<div></div>")
      (some { noOverrides with formatOutput := some false })
      (NodeList.cons (elNode "div" [] .nil) .nil)).result = some "" := rfl
  exact ⟨h, by rw [h]; simp⟩

/-- C1 (amended). For every parse tree in which no element carries a
`class` or `style` attribute and no `<style>` element occurs
(hereditarily: every node `Unstyled`), `convertToSass` returns `null`, or
the empty stylesheet `""` (`formatOutput` off), or the external
formatter's rendering of the empty stylesheet (`formatOutput` on) — but
not necessarily `null`. -/
theorem c1_theorem (beautify fixApply : String → String) (defaults : TwToSassOptions)
    (html : Option String) (options : Option OptionOverrides) (parseTree : NodeList)
    (h : ∀ n ∈ parseTree.toList, Unstyled n) :
    (convertToSass beautify fixApply defaults html options parseTree).result = none ∨
    (convertToSass beautify fixApply defaults html options parseTree).result = some "" ∨
    (convertToSass beautify fixApply defaults html options parseTree).result
      = some (fixApply (beautify "")) := by
  cases html with
  | none => exact Or.inl rfl
  | some hs =>
      cases hlen : hs.length != 0 with
      | false =>
          left
          simp [convertToSass, hlen]
      | true =>
          have hres : (convertToSass beautify fixApply defaults (some hs) options
              parseTree).result
              = convertCore beautify fixApply
                  (match options with
                   | some o => mergeOptions defaults o
                   | none => defaults) parseTree := by
            simp [convertToSass, hlen]
          generalize ho : (match options with
                   | some o => mergeOptions defaults o
                   | none => defaults) = opts at hres
          cases hfd : filterHtmlData parseTree 1 with
          | none =>
              left
              rw [hres]
              simp [convertCore, hfd]
          | some L =>
              have hL2 : L = filterGo parseTree 1 none none := by
                rw [filterHtmlData_some hfd, styleListOf_unstyled parseTree h]
                rfl
              have hmem : ∀ m ∈ L.toList, Unstyled m := by
                rw [hL2]
                exact filterGo_unstyled parseTree 1 none none h
              have hsass : getSassTree opts L 0 = "" :=
                getSassTreeGo_unstyled opts L 0 0 hmem
              rw [hres]
              cases hout : opts.formatOutput with
              | true =>
                  right; right
                  simp [convertCore, hfd, hsass, hout]
              | false =>
                  right; left
                  simp [convertCore, hfd, hsass, hout]

/-- C1 witness: the single unstyled `div` satisfies the hypothesis, and
the conversion result is one of the three allowed values (here, with
identity collaborators, the empty string). -/
theorem c1_witness :
    (∀ n ∈ (NodeList.cons (elNode "div" [] .nil) .nil).toList, Unstyled n) ∧
    ((convertToSass id id defaultOptions (some "<div></div>") none
        (NodeList.cons (elNode "div" [] .nil) .nil)).result = none ∨
     (convertToSass id id defaultOptions (some "<div></div>") none
        (NodeList.cons (elNode "div" [] .nil) .nil)).result = some "" ∨
     (convertToSass id id defaultOptions (some "<div></div>") none
        (NodeList.cons (elNode "div" [] .nil) .nil)).result = some (id (id ""))) := by
  have h1 : Unstyled (elNode "div" [] .nil) := by
    show Unstyled (HtmlNode.mk (some "element") (some "div") (some []) (some .nil)
      none none none none none)
    refine Unstyled.intro _ _ _ _ _ _ _ _ _ (by simp) ?_ (Or.inl rfl) ?_
    · intro l hl
      cases hl
      intro a ha
      simp at ha
    · intro cs hcs
      cases hcs
      intro c hc
      simp [NodeList.toList] at hc
  have hT : ∀ n ∈ (NodeList.cons (elNode "div" [] .nil) .nil).toList, Unstyled n := by
    intro n hn
    simp [NodeList.toList] at hn
    rw [hn]
    exact h1
  exact ⟨hT, c1_theorem id id defaultOptions (some "<div></div>") none _ hT⟩

/-- C2 counterexample: an input consisting of a single
`<style>color: red</style>` element contains a `<style>` element, yet the
conversion output is `null` — it contains no `// #region STYLE #1`
pass-through region at all (the top level retains no parent candidate, so
normalization discards the extracted style contents). -/
theorem c2_counterexample :
    (convertToSass id id defaultOptions (some "<style>color: red</style>") none
      (NodeList.cons (elNode "style" [] (.cons (textNode "color: red") .nil)) .nil)).result
      = none := rfl

/-- C2 (amended). For every parse tree whose top level contains a
`<style>` element (first one `s`) and at least one parent candidate, the
unformatted conversion output begins with the pass-through region
`// #region STYLE #1`, the style element's concatenated child contents,
and `// #endregion`, outside any selector block (the region is a prefix of
the output), followed by the rendering of the remaining nodes with the
style counter advanced. Style elements at levels without surviving
candidates, or nested below the top level, produce no region. -/
theorem c2_theorem (opts : TwToSassOptions) (s : HtmlNode) (ss : NodeList)
    (parseTree : NodeList)
    (hs : parseTree.filter isStyleTag = NodeList.cons s ss)
    (hc : (parseTree.filter isCandidate).isEmpty = false) :
    filterHtmlData parseTree 1
        = some ((styleListOf parseTree).append (filterGo parseTree 1 none none)) ∧
    getSassTree opts ((styleListOf parseTree).append (filterGo parseTree 1 none none)) 0
        = styleRegion 1 (allChildContents s) ++
          getSassTreeGo opts
            ((getStyleContents ss).append (filterGo parseTree 1 none none)) 0 1 := by
  have hel : (filterGo parseTree 1 none none).isEmpty = false := by
    have hlen := filterGo_length parseTree 1 none none
    cases hgo : filterGo parseTree 1 none none with
    | nil =>
        rw [hgo] at hlen
        cases hcands : parseTree.filter isCandidate with
        | nil => rw [hcands] at hc; simp [NodeList.isEmpty] at hc
        | cons a b => rw [hcands] at hlen; simp [NodeList.length] at hlen
    | cons a b => rfl
  have hstyle : styleListOf parseTree
      = NodeList.cons (syntheticStyleNode (allChildContents s)) (getStyleContents ss) := by
    simp only [styleListOf, hs, NodeList.isEmpty, Bool.not_false, if_true]
    simp only [getStyleContents, NodeList.map]
    have hbody : String.join ((((s.children.getD .nil).toList.filter (fun _x => true))).map
        (fun x => x.content.getD "")) = allChildContents s := by
      rw [List.filter_true]
      rfl
    rw [hbody]
  constructor
  · simp [filterHtmlData, hc, hel]
  · rw [hstyle]
    exact getSassTreeGo_styleNode opts (allChildContents s)
      ((getStyleContents ss).append (filterGo parseTree 1 none none)) 0 0

/-- C2 witness: `<style>color: red</style>` followed by
`<div class="flex">` yields the region followed by the `div` block; the
concrete output is also evaluated. -/
theorem c2_witness :
    ((NodeList.cons (elNode "style" [] (.cons (textNode "color: red") .nil))
        (.cons (elNode "div" [IHtmlNodeAttribute.mk "class" "flex"] .nil) .nil)).filter
        isStyleTag
      = NodeList.cons (elNode "style" [] (.cons (textNode "color: red") .nil)) .nil) ∧
    (((NodeList.cons (elNode "style" [] (.cons (textNode "color: red") .nil))
        (.cons (elNode "div" [IHtmlNodeAttribute.mk "class" "flex"] .nil) .nil)).filter
        isCandidate).isEmpty = false) ∧
    (filterHtmlData (NodeList.cons (elNode "style" [] (.cons (textNode "color: red") .nil))
        (.cons (elNode "div" [IHtmlNodeAttribute.mk "class" "flex"] .nil) .nil)) 1
      = some ((styleListOf (NodeList.cons (elNode "style" []
            (.cons (textNode "color: red") .nil))
            (.cons (elNode "div" [IHtmlNodeAttribute.mk "class" "flex"] .nil) .nil))).append
          (filterGo (NodeList.cons (elNode "style" [] (.cons (textNode "color: red") .nil))
            (.cons (elNode "div" [IHtmlNodeAttribute.mk "class" "flex"] .nil) .nil))
            1 none none)) ∧
     getSassTree defaultOptions
        ((styleListOf (NodeList.cons (elNode "style" []
            (.cons (textNode "color: red") .nil))
            (.cons (elNode "div" [IHtmlNodeAttribute.mk "class" "flex"] .nil) .nil))).append
          (filterGo (NodeList.cons (elNode "style" [] (.cons (textNode "color: red") .nil))
            (.cons (elNode "div" [IHtmlNodeAttribute.mk "class" "flex"] .nil) .nil))
            1 none none)) 0
      = styleRegion 1 (allChildContents (elNode "style" []
            (.cons (textNode "color: red") .nil))) ++
          getSassTreeGo defaultOptions
            ((getStyleContents .nil).append
              (filterGo (NodeList.cons (elNode "style" []
                (.cons (textNode "color: red") .nil))
                (.cons (elNode "div" [IHtmlNodeAttribute.mk "class" "flex"] .nil) .nil))
                1 none none)) 0 1) ∧
    getSassTree defaultOptions
        ((styleListOf (NodeList.cons (elNode "style" []
            (.cons (textNode "color: red") .nil))
            (.cons (elNode "div" [IHtmlNodeAttribute.mk "class" "flex"] .nil) .nil))).append
          (filterGo (NodeList.cons (elNode "style" [] (.cons (textNode "color: red") .nil))
            (.cons (elNode "div" [IHtmlNodeAttribute.mk "class" "flex"] .nil) .nil))
            1 none none)) 0
      = "// #region STYLE #1\n\ncolor: red\n// #endregion\n\n/* div -> 1 */.class-div-0\x7b@apply flex;\x7d" :=
  ⟨rfl, rfl,
    c2_theorem defaultOptions (elNode "style" [] (.cons (textNode "color: red") .nil))
      .nil
      (NodeList.cons (elNode "style" [] (.cons (textNode "color: red") .nil))
        (.cons (elNode "div" [IHtmlNodeAttribute.mk "class" "flex"] .nil) .nil))
      rfl rfl,
    by decide⟩

/-- C6 counterexample: with prefix "pre-", `maxClassNameLength` 5, empty
suffix and comment "abcdef", the source emits `.pre-a` (the prefix is
prepended BEFORE truncation, so truncation eats into the slug), while the
claim's recipe (truncate the slug first, then wrap) gives `.pre-abcde`. -/
theorem c6_counterexample :
    getClassName c6Options c6Node 1 = ".pre-a" ∧
    claimedSelector c6Options c6Node = ".pre-abcde" ∧
    (".pre-a" : String) ≠ ".pre-abcde" := by
  refine ⟨by decide, by decide, by decide⟩

/-- C6 (amended). For every node with a truthy derived comment under
`useCommentBlocksAsClassName`, the emitted selector is `.` followed by:
the configured prefix concatenated with the slug of the comment (under
the configured case and replacement policy), that prefixed slug truncated
to `maxClassNameLength` characters when longer, and then the configured
suffix — i.e. the prefix participates in the truncation. -/
theorem c6_theorem (opts : TwToSassOptions) (node : HtmlNode) (deepth : Nat)
    (h1 : jsTruthyS node.comment = true) (h2 : opts.useCommentBlocksAsClassName = true) :
    getClassName opts node deepth =
      classCommentHeader opts node ++ "." ++
        ((if (opts.classNameOptions.prefixStr ++ slug (node.comment.getD "")
              opts.classNameOptions.lowercase opts.classNameOptions.replaceWith).length >
              opts.maxClassNameLength
          then (opts.classNameOptions.prefixStr ++ slug (node.comment.getD "")
              opts.classNameOptions.lowercase opts.classNameOptions.replaceWith).take
              opts.maxClassNameLength
          else opts.classNameOptions.prefixStr ++ slug (node.comment.getD "")
              opts.classNameOptions.lowercase opts.classNameOptions.replaceWith) ++
          opts.classNameOptions.suffixStr) := by
  simp [getClassName, h1, h2, String.append_assoc]

/-- C6 witness: the amended formula applied at the concrete
configuration, plus hypothesis checks. -/
theorem c6_witness :
    jsTruthyS c6Node.comment = true ∧
    c6Options.useCommentBlocksAsClassName = true ∧
    getClassName c6Options c6Node 1 =
      classCommentHeader c6Options c6Node ++ "." ++
        ((if (c6Options.classNameOptions.prefixStr ++ slug (c6Node.comment.getD "")
              c6Options.classNameOptions.lowercase c6Options.classNameOptions.replaceWith).length >
              c6Options.maxClassNameLength
          then (c6Options.classNameOptions.prefixStr ++ slug (c6Node.comment.getD "")
              c6Options.classNameOptions.lowercase c6Options.classNameOptions.replaceWith).take
              c6Options.maxClassNameLength
          else c6Options.classNameOptions.prefixStr ++ slug (c6Node.comment.getD "")
              c6Options.classNameOptions.lowercase c6Options.classNameOptions.replaceWith) ++
          c6Options.classNameOptions.suffixStr) :=
  ⟨by decide, rfl, c6_theorem c6Options c6Node 1 (by decide) rfl⟩

/-- C7 counterexample: a raw `<style>` element with a text child "a" and a
comment child "b" yields a synthetic node carrying "ab" — the comment
child's content is concatenated too (the source's child filter is an
always-truthy assignment), while the claim's text-typed-only recipe gives
"a". -/
theorem c7_counterexample :
    ((getStyleContents (NodeList.cons
        (elNode "style" [] (.cons (textNode "a") (.cons (commentNode "b") .nil)))
        .nil)).get? 0).map HtmlNode.filterAttributes
      = some (some { style := some "ab", classAttr := none }) ∧
    textOnlyContents (elNode "style" [] (.cons (textNode "a") (.cons (commentNode "b") .nil)))
      = "a" ∧
    ("ab" : String) ≠ "a" := by
  refine ⟨by decide, by decide, by decide⟩

/-- C7 (amended). For every raw `<style>` element, the synthetic style
node carries in `filterAttributes.style` the concatenation, in document
order with no separator, of the content of ALL its children, regardless
of their type (children without content contribute the empty string). -/
theorem c7_theorem (styleElements : NodeList) :
    getStyleContents styleElements
      = styleElements.map (fun element => syntheticStyleNode (allChildContents element)) := by
  induction styleElements using NodeList.recAux with
  | nil => rfl
  | cons n rest ih =>
      simp only [getStyleContents, NodeList.map] at ih ⊢
      rw [List.filter_true]
      rw [ih]
      rfl

/-- C8. When `convertToSass` is called with non-empty input and an options
object, the module-level defaults are replaced — before conversion runs —
by the shallow merge of the previous defaults with the supplied options
(`{ ...defaultOptions, ...options }`), the conversion runs under the
merged options, and a subsequent call in the same process supplying no
options runs under (and preserves) those merged values. -/
theorem c8_theorem (beautify fixApply : String → String) (defaults : TwToSassOptions)
    (h1 h2 : String) (o : OptionOverrides) (t1 t2 : NodeList)
    (hh1 : h1.length ≠ 0) (hh2 : h2.length ≠ 0) :
    convertToSass beautify fixApply defaults (some h1) (some o) t1
      = { result := convertCore beautify fixApply (mergeOptions defaults o) t1,
          newDefaults := mergeOptions defaults o, parserInvoked := true } ∧
    convertToSass beautify fixApply (mergeOptions defaults o) (some h2) none t2
      = { result := convertCore beautify fixApply (mergeOptions defaults o) t2,
          newDefaults := mergeOptions defaults o, parserInvoked := true } := by
  have b1 : (h1.length != 0) = true := by
    simp only [bne_iff_ne]
    exact hh1
  have b2 : (h2.length != 0) = true := by
    simp only [bne_iff_ne]
    exact hh2
  constructor
  · simp [convertToSass, b1]
  · simp [convertToSass, b2]

/-- C8 witness: a first call with a `formatOutput := false` override makes
the merged options the new defaults; a second option-less call runs under
them. -/
theorem c8_witness :
    ("x".length ≠ 0) ∧ ("y".length ≠ 0) ∧
    (convertToSass id id defaultOptions (some "x")
        (some { noOverrides with formatOutput := some false }) .nil
      = { result := convertCore id id
            (mergeOptions defaultOptions { noOverrides with formatOutput := some false }) .nil,
          newDefaults :=
            mergeOptions defaultOptions { noOverrides with formatOutput := some false },
          parserInvoked := true } ∧
     convertToSass id id
        (mergeOptions defaultOptions { noOverrides with formatOutput := some false })
        (some "y") none .nil
      = { result := convertCore id id
            (mergeOptions defaultOptions { noOverrides with formatOutput := some false }) .nil,
          newDefaults :=
            mergeOptions defaultOptions { noOverrides with formatOutput := some false },
          parserInvoked := true }) :=
  ⟨by decide, by decide,
    c8_theorem id id defaultOptions "x" "y"
      { noOverrides with formatOutput := some false } .nil .nil
      (by decide) (by decide)⟩

/-- C9 counterexample: the whitespace-only input " " is truthy with
positive length, so it passes the `html && html.length` guard and
conversion work is performed — the input is cleaned and handed to the
parser (`parserInvoked`), and the cleaner turns it into `null` — contrary
to the claim that no conversion work happens for whitespace-only input. -/
theorem c9_counterexample :
    (convertToSass id id defaultOptions (some " ") none .nil).parserInvoked = true ∧
    cleanText " " false = none := by
  refine ⟨rfl, rfl⟩

/-- C9 (amended). For `null` and for empty input, `convertToSass` returns
`null` and performs no conversion work (defaults untouched, parser never
invoked); whitespace-only input, however, is not caught by the guard. -/
theorem c9_theorem (beautify fixApply : String → String) (defaults : TwToSassOptions)
    (options : Option OptionOverrides) (parseTree : NodeList) :
    convertToSass beautify fixApply defaults none options parseTree
      = { result := none, newDefaults := defaults, parserInvoked := false } ∧
    convertToSass beautify fixApply defaults (some "") options parseTree
      = { result := none, newDefaults := defaults, parserInvoked := false } :=
  ⟨rfl, rfl⟩

/-- C10. For every parse tree whose top level has `<style>` elements but
no retained parent candidate (element or comment with a tag other than
`style`), `filterHtmlData` returns `null` — the extracted style contents
are discarded — and `convertToSass` therefore returns `null`. -/
theorem c10_theorem (nodes : NodeList) (nestedOrder : Nat)
    (beautify fixApply : String → String) (defaults : TwToSassOptions)
    (html : Option String) (options : Option OptionOverrides)
    (hc : (nodes.filter isCandidate).isEmpty = true)
    (hs : (nodes.filter isStyleTag).isEmpty = false) :
    filterHtmlData nodes nestedOrder = none ∧
    (convertToSass beautify fixApply defaults html options nodes).result = none := by
  have hfd : ∀ k, filterHtmlData nodes k = none := by
    intro k
    simp [filterHtmlData, hc]
  refine ⟨hfd nestedOrder, ?_⟩
  cases html with
  | none => rfl
  | some h =>
      cases hlen : h.length != 0 with
      | false => simp [convertToSass, hlen]
      | true => simp [convertToSass, hlen, convertCore, hfd 1]

/-- C10 witness: a lone `<style>color: red</style>` at the top level —
style elements present, no candidates — yields `null` from both
normalization and conversion. -/
theorem c10_witness :
    (((NodeList.cons (elNode "style" [] (.cons (textNode "color: red") .nil)) .nil).filter
        isCandidate).isEmpty = true) ∧
    (((NodeList.cons (elNode "style" [] (.cons (textNode "color: red") .nil)) .nil).filter
        isStyleTag).isEmpty = false) ∧
    (filterHtmlData (NodeList.cons (elNode "style" []
        (.cons (textNode "color: red") .nil)) .nil) 1 = none ∧
     (convertToSass id id defaultOptions (some "<style>color: red</style>") none
        (NodeList.cons (elNode "style" [] (.cons (textNode "color: red") .nil)) .nil)).result
       = none) :=
  ⟨rfl, rfl,
    c10_theorem (NodeList.cons (elNode "style" [] (.cons (textNode "color: red") .nil)) .nil)
      1 id id defaultOptions (some "<style>color: red</style>") none rfl rfl⟩

end TwcssToSass
